import Mathlib

/-!
Shallow embedding of `src/string/utils.rs` from the `staticvec` repository:
the byte-level primitives backing a fixed-capacity UTF-8 string buffer
(`StaticString<N>`).  Machine bytes are modelled as `Nat` (values < 256 where
the code guarantees it), buffers as `List Nat`, and the `u8` cast
(`into_lossy`) as `% 256`.
-/

namespace StaticVec

/-- Modelled from the spec: the error enum surfaced by the checked layer.
§7 names exactly two kinds: `OutOfBounds` and the UTF-8 boundary error
(`Error::Utf8` in the code). -/
inductive Error where
  | OutOfBounds : Error
  | Utf8 : Error
deriving DecidableEq, Repr

/-- Modelled from the spec: the fixed-capacity buffer of §3 — a byte array
whose length is the static capacity `N`, paired with a logical length
(`size` in the code) marking the initialized UTF-8 prefix.  `data.length`
plays the role of `capacity()`, `size` of `len()`, `data` itself of
`as_mut_bytes()`, and `data.take size` of `as_str()`'s bytes. -/
structure StaticString where
  data : List Nat
  size : Nat
deriving DecidableEq, Repr

/-- `capacity()` of the buffer: the static array length `N`. -/
def StaticString.capacity (s : StaticString) : Nat := s.data.length

/-- The bytes of `as_str()`: the initialized prefix of logical length. -/
def StaticString.strBytes (s : StaticString) : List Nat := s.data.take s.size

/-- Embedding of `shift_unchecked` (`core::ptr::copy`, i.e. `memmove`):
copies `len` bytes starting at `src` so they start at `dst` within the same
buffer; every destination byte receives the byte the *original* buffer
held at the corresponding source offset, and all other bytes are kept. -/
def shift_unchecked (s : List Nat) (src dst len : Nat) : List Nat :=
  (List.range s.length).map fun i =>
    if dst ≤ i ∧ i < dst + len then s.getD (src + (i - dst)) 0 else s.getD i 0

/-- Embedding of `shift_right_unchecked`: moves the live tail starting at
`src` so that it starts at `dst`; the moved length is
`s.len().saturating_sub(from)`, which is Lean's truncated `Nat`
subtraction `s.size - src`. -/
def shift_right_unchecked (s : StaticString) (src dst : Nat) : StaticString :=
  { s with data := shift_unchecked s.data src dst (s.size - src) }

/-- Embedding of `shift_left_unchecked`: moves bytes starting at
`src` down at `dst`; the moved length is `s.len().saturating_sub(to)`
(computed from `dst`, not from `src`). -/
def shift_left_unchecked (s : StaticString) (src dst : Nat) : StaticString :=
  { s with data := shift_unchecked s.data src dst (s.size - dst) }

/-- Rust's `Option::ok_or`: `Some(v)` becomes `Ok(v)`, `None` becomes the
given error. -/
def okOr (o : Option Unit) (e : Error) : Except Error Unit :=
  match o with
  | some v => Except.ok v
  | none => Except.error e

/-- Embedding of `is_inside_boundary`:
`Some(()).filter(|_| size <= limit).ok_or(Error::OutOfBounds)`. -/
def is_inside_boundary (size limit : Nat) : Except Error Unit :=
  okOr ((some ()).filter fun _ => decide (size ≤ limit)) Error.OutOfBounds

/-- Embedding of Rust `str::is_char_boundary` on a byte slice: true at 0;
otherwise, if the index is past the end it must equal the length, and
inside the slice the byte there must not be a UTF-8 continuation byte
(`b < 0x80 || b >= 0xC0`). -/
def strIsCharBoundary (s : List Nat) (idx : Nat) : Bool :=
  if idx = 0 then true
  else
    match s.get? idx with
    | none => idx == s.length
    | some b => decide (b < 0x80) || decide (0xC0 ≤ b)

/-- Embedding of the checked `is_char_boundary` of `utils.rs`: `Ok(())` when
`s.as_str().is_char_boundary(idx)`, else `Err(Error::Utf8)`. -/
def is_char_boundary (s : StaticString) (idx : Nat) : Except Error Unit :=
  if strIsCharBoundary s.strBytes idx then Except.ok () else Except.error Error.Utf8

/-- The backward scan of `truncate_str`'s `while` loop: starting at the given
index, decrement (saturating) until `is_char_boundary` holds.  Index 0 is
always a boundary, so the structural base case coincides with the loop. -/
def scanBack (s : List Nat) : Nat → Nat
  | 0 => 0
  | i + 1 => if strIsCharBoundary s (i + 1) then i + 1 else scanBack s i

/-- Embedding of `truncate_str`: exact-boundary prefix, else (when `size`
is inside the slice) back off at the nearest boundary below `size`, else
the whole slice. -/
def truncate_str (s : List Nat) (size : Nat) : List Nat :=
  if strIsCharBoundary s size then s.take size
  else if size < s.length then s.take (scanBack s (size - 1))
  else s

/-- A Unicode scalar value (the invariant of Rust's `char`): a code point
below `0x110000` outside the surrogate range `[0xD800, 0xE000)`. -/
def IsScalar (c : Nat) : Prop :=
  c < 0x110000 ∧ (c < 0xD800 ∨ 0xE000 ≤ c)

/-- `char::len_utf8`: the UTF-8 byte count of a scalar, by the thresholds
`0x80`, `0x800`, `0x10000`. -/
def utf8Len (c : Nat) : Nat :=
  if c < 0x80 then 1 else if c < 0x800 then 2 else if c < 0x10000 then 3 else 4

/-- The byte sequence written by `encode_char_utf8_unchecked`'s four
branches: shifts, masks and tag-ORs exactly as in the source, with the
`u8` cast (`into_lossy`) as `% 256`. -/
def utf8EncodeChar (c : Nat) : List Nat :=
  if c < 0x80 then
    [c % 256]
  else if c < 0x800 then
    [((c >>> 6 &&& 0x1F) % 256) ||| 0xC0,
     ((c &&& 0x3F) % 256) ||| 0x80]
  else if c < 0x10000 then
    [((c >>> 12 &&& 0x0F) % 256) ||| 0xE0,
     ((c >>> 6 &&& 0x3F) % 256) ||| 0x80,
     ((c &&& 0x3F) % 256) ||| 0x80]
  else
    [((c >>> 18 &&& 0x07) % 256) ||| 0xF0,
     ((c >>> 12 &&& 0x3F) % 256) ||| 0x80,
     ((c >>> 6 &&& 0x3F) % 256) ||| 0x80,
     ((c &&& 0x3F) % 256) ||| 0x80]

/-- Writes a byte sequence into the buffer starting at `index`, leaving all
other positions as they were (the `dst.get_unchecked_mut(k) = …` stores of
the encoder). -/
def writeBytesAt (s : List Nat) (index : Nat) (bs : List Nat) : List Nat :=
  (List.range s.length).map fun i =>
    if index ≤ i ∧ i < index + bs.length then bs.getD (i - index) 0 else s.getD i 0

/-- Embedding of `encode_char_utf8_unchecked`: stores the UTF-8 bytes of the
scalar into the buffer starting at `index`; the logical length is not
touched. -/
def encode_char_utf8_unchecked (s : StaticString) (c index : Nat) : StaticString :=
  { s with data := writeBytesAt s.data index (utf8EncodeChar c) }

/-- A strict UTF-8 decoder for a byte sequence holding exactly one encoded
scalar: checks leading tags, continuation bytes, overlong encodings, the
surrogate gap and the `0x110000` ceiling. -/
def decodeUtf8 (bs : List Nat) : Option Nat :=
  match bs with
  | [b0] => if b0 < 0x80 then some b0 else none
  | [b0, b1] =>
      if 0xC0 ≤ b0 ∧ b0 < 0xE0 ∧ 0x80 ≤ b1 ∧ b1 < 0xC0 ∧
          0x80 ≤ (b0 - 0xC0) * 64 + (b1 - 0x80) then
        some ((b0 - 0xC0) * 64 + (b1 - 0x80))
      else none
  | [b0, b1, b2] =>
      if 0xE0 ≤ b0 ∧ b0 < 0xF0 ∧ 0x80 ≤ b1 ∧ b1 < 0xC0 ∧ 0x80 ≤ b2 ∧ b2 < 0xC0 ∧
          0x800 ≤ (b0 - 0xE0) * 4096 + (b1 - 0x80) * 64 + (b2 - 0x80) ∧
          ((b0 - 0xE0) * 4096 + (b1 - 0x80) * 64 + (b2 - 0x80) < 0xD800 ∨
            0xE000 ≤ (b0 - 0xE0) * 4096 + (b1 - 0x80) * 64 + (b2 - 0x80)) then
        some ((b0 - 0xE0) * 4096 + (b1 - 0x80) * 64 + (b2 - 0x80))
      else none
  | [b0, b1, b2, b3] =>
      if 0xF0 ≤ b0 ∧ b0 < 0xF8 ∧ 0x80 ≤ b1 ∧ b1 < 0xC0 ∧ 0x80 ≤ b2 ∧ b2 < 0xC0 ∧
          0x80 ≤ b3 ∧ b3 < 0xC0 ∧
          0x10000 ≤ (b0 - 0xF0) * 262144 + (b1 - 0x80) * 4096 + (b2 - 0x80) * 64 + (b3 - 0x80) ∧
          (b0 - 0xF0) * 262144 + (b1 - 0x80) * 4096 + (b2 - 0x80) * 64 + (b3 - 0x80) < 0x110000 then
        some ((b0 - 0xF0) * 262144 + (b1 - 0x80) * 4096 + (b2 - 0x80) * 64 + (b3 - 0x80))
      else none
  | _ => none

/-- Valid UTF-8 byte lists: concatenations of scalar encodings.  This is the
invariant Rust's `str` type guarantees for the inputs of `truncate_str`. -/
inductive ValidUtf8 : List Nat → Prop where
  | nil : ValidUtf8 []
  | cons (c : Nat) (rest : List Nat) : IsScalar c → ValidUtf8 rest →
      ValidUtf8 (utf8EncodeChar c ++ rest)

/-- The success condition that claim C5 attributes to `checkCharBoundary`,
written from the spec's words: index 0, index equal to the current length,
or the first byte of a *multi-byte* UTF-8 sequence (a leading byte
`≥ 0xC0`) within the valid prefix. -/
def specCharBoundaryOk (s : StaticString) (idx : Nat) : Prop :=
  idx = 0 ∨ idx = s.size ∨ (idx < s.size ∧ 0xC0 ≤ s.strBytes.getD idx 0)

/-- The amended success condition: index 0, index equal to the current
length, or the first byte of *any* UTF-8 sequence — single- or multi-byte,
i.e. any non-continuation byte — within the valid prefix. -/
def amendedCharBoundaryOk (s : StaticString) (idx : Nat) : Prop :=
  idx = 0 ∨ idx = s.size ∨
    (idx < s.size ∧ (s.strBytes.getD idx 0 < 0x80 ∨ 0xC0 ≤ s.strBytes.getD idx 0))

/-! ### Basic lemmas about the byte shifter -/

theorem shift_unchecked_length (s : List Nat) (src dst len : Nat) :
    (shift_unchecked s src dst len).length = s.length := by
  simp [shift_unchecked]

theorem shift_unchecked_getD (s : List Nat) (src dst len i : Nat) (h : i < s.length) :
    (shift_unchecked s src dst len).getD i 0 =
      if dst ≤ i ∧ i < dst + len then s.getD (src + (i - dst)) 0 else s.getD i 0 := by
  unfold shift_unchecked
  have hl : i < ((List.range s.length).map fun i =>
      if dst ≤ i ∧ i < dst + len then s.getD (src + (i - dst)) 0 else s.getD i 0).length := by
    simpa using h
  rw [List.getD_eq_getElem _ _ hl]
  simp [List.getElem_map, List.getElem_range]

theorem shift_unchecked_diag (s : List Nat) (k len : Nat) :
    shift_unchecked s k k len = s := by
  apply List.ext_getElem (by simp [shift_unchecked_length])
  intro i h1 h2
  have h1' : i < s.length := by simpa [shift_unchecked_length] using h1
  have hgd := shift_unchecked_getD s k k len i h1'
  rw [List.getD_eq_getElem _ _ h1] at hgd
  rw [hgd]
  by_cases hc : k ≤ i ∧ i < k + len
  · have hkk : k + (i - k) = i := by omega
    simp [hc, hkk, List.getElem?_eq_getElem h2]
  · simp [hc, List.getElem?_eq_getElem h2]

theorem shift_unchecked_len_zero (s : List Nat) (src dst : Nat) :
    shift_unchecked s src dst 0 = s := by
  apply List.ext_getElem (by simp [shift_unchecked_length])
  intro i h1 h2
  have h1' : i < s.length := by simpa [shift_unchecked_length] using h1
  have hgd := shift_unchecked_getD s src dst 0 i h1'
  rw [List.getD_eq_getElem _ _ h1] at hgd
  rw [hgd]
  have hc : ¬(dst ≤ i ∧ i < dst + 0) := by omega
  simp [hc, List.getElem?_eq_getElem h2]

/-! ### Claims about the gap maker / gap closer -/

/-- C7: calling `shift_right_unchecked` or `shift_left_unchecked` with
`from = to = k` leaves the buffer byte-for-byte unchanged, for every buffer
state and every offset `k`. -/
theorem shift_noop_when_offsets_equal (s : StaticString) (k : Nat) :
    shift_right_unchecked s k k = s ∧ shift_left_unchecked s k k = s := by
  constructor <;>
    simp [shift_right_unchecked, shift_left_unchecked, shift_unchecked_diag]

/-- C10: when `from ≥ s.len()`, the moved length `s.len().saturating_sub(from)`
is zero, so `shift_right_unchecked` moves no bytes and leaves the whole
buffer unchanged. -/
theorem shift_right_noop_of_from_ge_len (s : StaticString) (src dst : Nat)
    (h1 : s.size ≤ src) (h2 : src ≤ dst) (h3 : dst ≤ s.capacity) :
    shift_right_unchecked s src dst = s := by
  have hz : s.size - src = 0 := by omega
  simp [shift_right_unchecked, hz, shift_unchecked_len_zero]

theorem shift_right_noop_of_from_ge_len_witness :
    (⟨[97, 98, 0, 0], 2⟩ : StaticString).size ≤ 2 ∧
      shift_right_unchecked ⟨[97, 98, 0, 0], 2⟩ 2 3 = ⟨[97, 98, 0, 0], 2⟩ :=
  ⟨by decide, shift_right_noop_of_from_ge_len ⟨[97, 98, 0, 0], 2⟩ 2 3
    (by decide) (by decide) (by decide)⟩

/-- C3: for `from ≤ to` with `to + (len - from)` within capacity,
`shift_right_unchecked` makes the bytes originally at `[from, len)` reappear
unchanged at `[to, to + (len - from))`; and on the buffer holding
`"abcdefg"` with `from = 0`, `to = 4`, the raw buffer content becomes
`"abcdabcdefg"`. -/
theorem shift_right_moves_tail :
    (∀ (s : StaticString) (src dst : Nat), src ≤ dst → s.size ≤ s.capacity →
      dst + (s.size - src) ≤ s.capacity →
      ∀ j, j < s.size - src →
        (shift_right_unchecked s src dst).data.getD (dst + j) 0 =
          s.data.getD (src + j) 0) ∧
    (shift_right_unchecked ⟨[97, 98, 99, 100, 101, 102, 103, 0, 0, 0, 0], 7⟩ 0 4).data =
      [97, 98, 99, 100, 97, 98, 99, 100, 101, 102, 103] := by
  constructor
  · intro s src dst h1 h2 h3 j hj
    have hi : dst + j < s.data.length := by
      unfold StaticString.capacity at h2 h3
      omega
    show (shift_unchecked s.data src dst (s.size - src)).getD (dst + j) 0 = _
    rw [shift_unchecked_getD _ _ _ _ _ hi]
    have hc : dst ≤ dst + j ∧ dst + j < dst + (s.size - src) := by omega
    rw [if_pos hc]
    congr 1
    omega
  · decide

theorem shift_right_moves_tail_witness :
    (0 : Nat) ≤ 4 ∧
      (shift_right_unchecked ⟨[97, 98, 99, 100, 101, 102, 103, 0, 0, 0, 0], 7⟩ 0 4).data.getD 4 0 =
        (⟨[97, 98, 99, 100, 101, 102, 103, 0, 0, 0, 0], 7⟩ : StaticString).data.getD 0 0 :=
  ⟨by decide, shift_right_moves_tail.1 ⟨[97, 98, 99, 100, 101, 102, 103, 0, 0, 0, 0], 7⟩ 0 4
    (by decide) (by decide) (by decide) 0 (by decide)⟩

/-- C6: on the buffer holding `"abcdefg"` (capacity 8 so the over-wide copy
stays in bounds), `shift_left_unchecked` with `from = 1`, `to = 0` followed
by decrementing the logical length by 1 yields the string `"bcdefg"`. -/
theorem shift_left_example_abcdefg :
    ((shift_left_unchecked ⟨[97, 98, 99, 100, 101, 102, 103, 0], 7⟩ 1 0).data.take (7 - 1)) =
      [98, 99, 100, 101, 102, 103] := by
  decide

/-- C1 counterexample: with buffer bytes `[10,20,30,99,88,77,66,55]`,
logical length 3, `from = 2`, `to = 0` — so `to ≤ from ≤ len` and `from` is
a char boundary — the byte at index 1, which lies outside the claimed
destination range `[to, to + (len - from)) = [0, 1)`, is nevertheless
altered by `shift_left_unchecked`. -/
theorem shift_left_frame_counterexample :
    (0 : Nat) ≤ 2 ∧ (2 : Nat) ≤ 3 ∧
      strIsCharBoundary (StaticString.strBytes ⟨[10, 20, 30, 99, 88, 77, 66, 55], 3⟩) 2 = true ∧
      ¬((0 : Nat) ≤ 1 ∧ (1 : Nat) < 0 + (3 - 2)) ∧
      (shift_left_unchecked ⟨[10, 20, 30, 99, 88, 77, 66, 55], 3⟩ 2 0).data.getD 1 0 ≠
        (⟨[10, 20, 30, 99, 88, 77, 66, 55], 3⟩ : StaticString).data.getD 1 0 := by
  decide

/-- C1 amended: `shift_left_unchecked` moves `len - to` bytes (not
`len - from`): the bytes originally at `[from, from + (len - to))` are
relocated to `[to, len)`.  In particular the tail originally at `[from, len)`
does begin at `to`, but every byte of `[to, len)` is (re)written — including
`[to + (len - from), len)`, which receives bytes read from beyond the
logical length — while bytes below `to` and at or beyond `len` are
unaltered. -/
theorem shift_left_moves_tail_amended (s : StaticString) (src dst : Nat)
    (h1 : dst ≤ src) (h2 : src ≤ s.size) (h3 : s.size ≤ s.capacity)
    (h4 : src + (s.size - dst) ≤ s.capacity) :
    (∀ j, j < s.size - dst →
      (shift_left_unchecked s src dst).data.getD (dst + j) 0 =
        s.data.getD (src + j) 0) ∧
    (∀ i, i < s.capacity → (i < dst ∨ s.size ≤ i) →
      (shift_left_unchecked s src dst).data.getD i 0 = s.data.getD i 0) := by
  unfold StaticString.capacity at h3 h4
  constructor
  · intro j hj
    have hi : dst + j < s.data.length := by omega
    show (shift_unchecked s.data src dst (s.size - dst)).getD (dst + j) 0 = _
    rw [shift_unchecked_getD _ _ _ _ _ hi]
    have hc : dst ≤ dst + j ∧ dst + j < dst + (s.size - dst) := by omega
    rw [if_pos hc]
    congr 1
    omega
  · intro i hcap hout
    unfold StaticString.capacity at hcap
    show (shift_unchecked s.data src dst (s.size - dst)).getD i 0 = _
    rw [shift_unchecked_getD _ _ _ _ _ hcap]
    have hc : ¬(dst ≤ i ∧ i < dst + (s.size - dst)) := by omega
    rw [if_neg hc]

theorem shift_left_moves_tail_amended_witness :
    (0 : Nat) ≤ 2 ∧
      (shift_left_unchecked ⟨[10, 20, 30, 99, 88, 77, 66, 55], 3⟩ 2 0).data.getD 0 0 =
        (⟨[10, 20, 30, 99, 88, 77, 66, 55], 3⟩ : StaticString).data.getD 2 0 :=
  ⟨by decide, (shift_left_moves_tail_amended ⟨[10, 20, 30, 99, 88, 77, 66, 55], 3⟩ 2 0
    (by decide) (by decide) (by decide) (by decide)).1 0 (by decide)⟩

/-! ### Claims about the checked boundary layer -/

/-- C8: `is_inside_boundary size limit` succeeds iff `size ≤ limit` and
otherwise returns `OutOfBounds`; in particular `is_inside_boundary
(limit + 1) limit` is `OutOfBounds`. -/
theorem is_inside_boundary_spec :
    (∀ size limit : Nat, (is_inside_boundary size limit = Except.ok () ↔ size ≤ limit)) ∧
    (∀ size limit : Nat, ¬size ≤ limit →
      is_inside_boundary size limit = Except.error Error.OutOfBounds) ∧
    (∀ limit : Nat, is_inside_boundary (limit + 1) limit = Except.error Error.OutOfBounds) := by
  refine ⟨fun size limit => ?_, fun size limit h => ?_, fun limit => ?_⟩
  · by_cases h : size ≤ limit <;> simp [is_inside_boundary, okOr, Option.filter, h]
  · simp [is_inside_boundary, okOr, Option.filter, h]
  · simp [is_inside_boundary, okOr, Option.filter]

theorem is_inside_boundary_spec_witness :
    ¬(4 : Nat) ≤ 3 ∧ is_inside_boundary 4 3 = Except.error Error.OutOfBounds :=
  ⟨by decide, is_inside_boundary_spec.2.1 4 3 (by decide)⟩

/-- C5 counterexample: on the buffer holding `"ab"` (bytes `[97, 98]`,
length 2) at index 1, `is_char_boundary` succeeds, yet index 1 is neither 0,
nor the current length, nor the first byte of a multi-byte UTF-8 sequence
(byte 98 is a single-byte ASCII sequence) — so the claimed
characterisation of the success condition is false. -/
theorem is_char_boundary_claim_counterexample :
    is_char_boundary ⟨[97, 98], 2⟩ 1 = Except.ok () ∧
      ¬specCharBoundaryOk ⟨[97, 98], 2⟩ 1 := by
  constructor
  · rfl
  · intro h
    rcases h with h | h | h
    · exact absurd h (by decide)
    · exact absurd h (by decide)
    · exact absurd h.2 (by decide)

/-- C5 amended: `is_char_boundary` succeeds iff the index is 0, equals the
current length, or lands on a non-continuation byte (the first byte of a
single- or multi-byte UTF-8 sequence) within the valid prefix; in every
other case it returns the `Utf8` error. -/
theorem is_char_boundary_spec (s : StaticString) (idx : Nat)
    (hinv : s.size ≤ s.capacity) :
    (is_char_boundary s idx = Except.ok () ↔ amendedCharBoundaryOk s idx) ∧
    (¬amendedCharBoundaryOk s idx → is_char_boundary s idx = Except.error Error.Utf8) := by
  unfold StaticString.capacity at hinv
  have hlen : s.strBytes.length = s.size := by
    simp [StaticString.strBytes]
    omega
  have key : strIsCharBoundary s.strBytes idx = true ↔ amendedCharBoundaryOk s idx := by
    unfold strIsCharBoundary amendedCharBoundaryOk
    by_cases h0 : idx = 0
    · simp [h0]
    · rcases Nat.lt_or_ge idx s.size with hlt | hge
      · have hblt : idx < s.strBytes.length := by omega
        have hsome : s.strBytes.get? idx = some (s.strBytes.getD idx 0) := by
          rw [List.get?_eq_getElem?, List.getElem?_eq_getElem hblt,
            List.getD_eq_getElem _ 0 hblt]
        rw [if_neg h0, hsome]
        simp only [Bool.or_eq_true, decide_eq_true_eq]
        constructor
        · intro h
          exact Or.inr (Or.inr ⟨hlt, h⟩)
        · intro h
          rcases h with h | h | h
          · exact absurd h h0
          · omega
          · exact h.2
      · have hnone : s.strBytes.get? idx = none := by
          rw [List.get?_eq_getElem?]
          exact List.getElem?_eq_none (by omega)
        rw [if_neg h0, hnone, hlen]
        simp only [beq_iff_eq]
        constructor
        · intro h
          exact Or.inr (Or.inl h)
        · intro h
          rcases h with h | h | h
          · exact absurd h h0
          · exact h
          · exact absurd h.1 (by omega)
  constructor
  · unfold is_char_boundary
    by_cases hb : strIsCharBoundary s.strBytes idx = true
    · simp [hb, key.mp hb]
    · rw [if_neg hb]
      simp only [Bool.not_eq_true] at hb
      constructor
      · intro h
        exact absurd h (by simp)
      · intro h
        exact absurd (key.mpr h) (by simp [hb])
  · intro h
    unfold is_char_boundary
    rw [if_neg]
    intro hb
    exact h (key.mp hb)

theorem is_char_boundary_spec_witness :
    (⟨[97, 98], 2⟩ : StaticString).size ≤ StaticString.capacity ⟨[97, 98], 2⟩ ∧
      (is_char_boundary ⟨[97, 98], 2⟩ 2 = Except.ok () ↔
        amendedCharBoundaryOk ⟨[97, 98], 2⟩ 2) :=
  ⟨by decide, (is_char_boundary_spec ⟨[97, 98], 2⟩ 2 (by decide)).1⟩

/-- C9: for every index strictly greater than the current length,
`is_char_boundary` returns the `Utf8` error (not `OutOfBounds`): an
out-of-range index surfaces through the checked layer as a UTF-8 boundary
error. -/
theorem is_char_boundary_oob_gives_utf8 (s : StaticString) (idx : Nat)
    (hinv : s.size ≤ s.capacity) (h : s.size < idx) :
    is_char_boundary s idx = Except.error Error.Utf8 := by
  unfold StaticString.capacity at hinv
  have hlen : s.strBytes.length = s.size := by
    simp [StaticString.strBytes]
    omega
  unfold is_char_boundary
  rw [if_neg]
  unfold strIsCharBoundary
  have h0 : ¬idx = 0 := by omega
  have hnone : s.strBytes.get? idx = none := by
    rw [List.get?_eq_getElem?]
    exact List.getElem?_eq_none (by omega)
  rw [if_neg h0, hnone, hlen]
  simp
  omega

theorem is_char_boundary_oob_gives_utf8_witness :
    (⟨[97, 98], 2⟩ : StaticString).size < 5 ∧
      is_char_boundary ⟨[97, 98], 2⟩ 5 = Except.error Error.Utf8 :=
  ⟨by decide, is_char_boundary_oob_gives_utf8 ⟨[97, 98], 2⟩ 5 (by decide) (by decide)⟩

/-! ### Arithmetic lemmas for the bit-level encoder -/

theorem nat_shr6 (x : Nat) : x >>> 6 = x / 64 := by
  rw [Nat.shiftRight_eq_div_pow]

theorem nat_shr12 (x : Nat) : x >>> 12 = x / 4096 := by
  rw [Nat.shiftRight_eq_div_pow]

theorem nat_shr18 (x : Nat) : x >>> 18 = x / 262144 := by
  rw [Nat.shiftRight_eq_div_pow]

theorem nat_and63 (x : Nat) : x &&& 63 = x % 64 := by
  simpa using Nat.and_pow_two_sub_one_eq_mod x 6

theorem nat_and31 (x : Nat) : x &&& 31 = x % 32 := by
  simpa using Nat.and_pow_two_sub_one_eq_mod x 5

theorem nat_and15 (x : Nat) : x &&& 15 = x % 16 := by
  simpa using Nat.and_pow_two_sub_one_eq_mod x 4

theorem nat_and7 (x : Nat) : x &&& 7 = x % 8 := by
  simpa using Nat.and_pow_two_sub_one_eq_mod x 3

theorem nat_lor128 : ∀ x, x < 64 → x ||| 128 = x + 128 := by decide

theorem nat_lor192 : ∀ x, x < 32 → x ||| 192 = x + 192 := by decide

theorem nat_lor224 : ∀ x, x < 16 → x ||| 224 = x + 224 := by decide

theorem nat_lor240 : ∀ x, x < 8 → x ||| 240 = x + 240 := by decide

/-! ### Closed forms of the encoder's four branches -/

theorem utf8EncodeChar_one (c : Nat) (h : c < 0x80) :
    utf8EncodeChar c = [c] := by
  unfold utf8EncodeChar
  rw [if_pos h, Nat.mod_eq_of_lt (by omega)]

theorem utf8EncodeChar_two (c : Nat) (h1 : 0x80 ≤ c) (h2 : c < 0x800) :
    utf8EncodeChar c = [c / 64 + 192, c % 64 + 128] := by
  unfold utf8EncodeChar
  rw [if_neg (by omega), if_pos h2, nat_shr6, nat_and31, nat_and63]
  rw [show c / 64 % 32 % 256 = c / 64 from by omega,
    show c % 64 % 256 = c % 64 from by omega]
  rw [nat_lor192 _ (by omega), nat_lor128 _ (by omega)]

theorem utf8EncodeChar_three (c : Nat) (h1 : 0x800 ≤ c) (h2 : c < 0x10000) :
    utf8EncodeChar c = [c / 4096 + 224, c / 64 % 64 + 128, c % 64 + 128] := by
  unfold utf8EncodeChar
  rw [if_neg (by omega), if_neg (by omega), if_pos h2, nat_shr12, nat_shr6,
    nat_and15, nat_and63, nat_and63]
  rw [show c / 4096 % 16 % 256 = c / 4096 from by omega,
    show c / 64 % 64 % 256 = c / 64 % 64 from by omega,
    show c % 64 % 256 = c % 64 from by omega]
  rw [nat_lor224 _ (by omega), nat_lor128 _ (by omega), nat_lor128 _ (by omega)]

theorem utf8EncodeChar_four (c : Nat) (h1 : 0x10000 ≤ c) (h2 : c < 0x200000) :
    utf8EncodeChar c =
      [c / 262144 + 240, c / 4096 % 64 + 128, c / 64 % 64 + 128, c % 64 + 128] := by
  unfold utf8EncodeChar
  rw [if_neg (by omega), if_neg (by omega), if_neg (by omega), nat_shr18, nat_shr12,
    nat_shr6, nat_and7, nat_and63, nat_and63, nat_and63]
  rw [show c / 262144 % 8 % 256 = c / 262144 from by omega,
    show c / 4096 % 64 % 256 = c / 4096 % 64 from by omega,
    show c / 64 % 64 % 256 = c / 64 % 64 from by omega,
    show c % 64 % 256 = c % 64 from by omega]
  rw [nat_lor240 _ (by omega), nat_lor128 _ (by omega), nat_lor128 _ (by omega),
    nat_lor128 _ (by omega)]

theorem utf8EncodeChar_length (c : Nat) :
    (utf8EncodeChar c).length = utf8Len c := by
  unfold utf8EncodeChar utf8Len
  split_ifs <;> simp

theorem writeBytesAt_length (s : List Nat) (index : Nat) (bs : List Nat) :
    (writeBytesAt s index bs).length = s.length := by
  simp [writeBytesAt]

theorem writeBytesAt_getD (s : List Nat) (index : Nat) (bs : List Nat) (i : Nat)
    (h : i < s.length) :
    (writeBytesAt s index bs).getD i 0 =
      if index ≤ i ∧ i < index + bs.length then bs.getD (i - index) 0 else s.getD i 0 := by
  unfold writeBytesAt
  have hl : i < ((List.range s.length).map fun i =>
      if index ≤ i ∧ i < index + bs.length then bs.getD (i - index) 0 else s.getD i 0).length := by
    simpa using h
  rw [List.getD_eq_getElem _ _ hl]
  simp [List.getElem_map, List.getElem_range]

theorem decodeUtf8_one (b0 : Nat) :
    decodeUtf8 [b0] = if b0 < 0x80 then some b0 else none := rfl

theorem decodeUtf8_two (b0 b1 : Nat) :
    decodeUtf8 [b0, b1] =
      if 0xC0 ≤ b0 ∧ b0 < 0xE0 ∧ 0x80 ≤ b1 ∧ b1 < 0xC0 ∧
          0x80 ≤ (b0 - 0xC0) * 64 + (b1 - 0x80) then
        some ((b0 - 0xC0) * 64 + (b1 - 0x80))
      else none := rfl

theorem decodeUtf8_three (b0 b1 b2 : Nat) :
    decodeUtf8 [b0, b1, b2] =
      if 0xE0 ≤ b0 ∧ b0 < 0xF0 ∧ 0x80 ≤ b1 ∧ b1 < 0xC0 ∧ 0x80 ≤ b2 ∧ b2 < 0xC0 ∧
          0x800 ≤ (b0 - 0xE0) * 4096 + (b1 - 0x80) * 64 + (b2 - 0x80) ∧
          ((b0 - 0xE0) * 4096 + (b1 - 0x80) * 64 + (b2 - 0x80) < 0xD800 ∨
            0xE000 ≤ (b0 - 0xE0) * 4096 + (b1 - 0x80) * 64 + (b2 - 0x80)) then
        some ((b0 - 0xE0) * 4096 + (b1 - 0x80) * 64 + (b2 - 0x80))
      else none := rfl

theorem decodeUtf8_four (b0 b1 b2 b3 : Nat) :
    decodeUtf8 [b0, b1, b2, b3] =
      if 0xF0 ≤ b0 ∧ b0 < 0xF8 ∧ 0x80 ≤ b1 ∧ b1 < 0xC0 ∧ 0x80 ≤ b2 ∧ b2 < 0xC0 ∧
          0x80 ≤ b3 ∧ b3 < 0xC0 ∧
          0x10000 ≤ (b0 - 0xF0) * 262144 + (b1 - 0x80) * 4096 + (b2 - 0x80) * 64 + (b3 - 0x80) ∧
          (b0 - 0xF0) * 262144 + (b1 - 0x80) * 4096 + (b2 - 0x80) * 64 + (b3 - 0x80) < 0x110000 then
        some ((b0 - 0xF0) * 262144 + (b1 - 0x80) * 4096 + (b2 - 0x80) * 64 + (b3 - 0x80))
      else none := rfl

theorem decodeUtf8_utf8EncodeChar (c : Nat) (hc : IsScalar c) :
    decodeUtf8 (utf8EncodeChar c) = some c := by
  obtain ⟨hub, hsur⟩ := hc
  rcases Nat.lt_or_ge c 0x80 with h1 | h1
  · rw [utf8EncodeChar_one c h1, decodeUtf8_one, if_pos h1]
  · rcases Nat.lt_or_ge c 0x800 with h2 | h2
    · rw [utf8EncodeChar_two c h1 h2, decodeUtf8_two,
        if_pos (show _ from by omega)]
      exact congrArg some (by omega)
    · rcases Nat.lt_or_ge c 0x10000 with h3 | h3
      · rw [utf8EncodeChar_three c h2 h3, decodeUtf8_three,
          if_pos (show _ from by omega)]
        exact congrArg some (by omega)
      · rw [utf8EncodeChar_four c h3 (by omega), decodeUtf8_four,
          if_pos (show _ from by omega)]
        exact congrArg some (by omega)

/-- C2: for every Unicode scalar value `c` and every index meeting the
capacity preconditions, `encode_char_utf8_unchecked` writes exactly
`utf8Len c` bytes (1–4 by the thresholds `0x80`, `0x800`, `0x10000`)
starting at `index` — every other buffer byte is unchanged — and decoding
those bytes as UTF-8 yields back exactly `c`. -/
theorem encode_char_utf8_spec (s : StaticString) (c index : Nat)
    (hc : IsScalar c) (hcap1 : index + utf8Len c ≤ s.capacity)
    (hcap2 : s.size + utf8Len c ≤ s.capacity) :
    (utf8EncodeChar c).length = utf8Len c ∧
    decodeUtf8 (utf8EncodeChar c) = some c ∧
    ∀ i, i < s.capacity →
      (encode_char_utf8_unchecked s c index).data.getD i 0 =
        if index ≤ i ∧ i < index + utf8Len c
        then (utf8EncodeChar c).getD (i - index) 0
        else s.data.getD i 0 := by
  refine ⟨utf8EncodeChar_length c, decodeUtf8_utf8EncodeChar c hc, fun i hi => ?_⟩
  unfold StaticString.capacity at hi
  show (writeBytesAt s.data index (utf8EncodeChar c)).getD i 0 = _
  rw [writeBytesAt_getD _ _ _ _ hi, utf8EncodeChar_length c]

theorem encode_char_utf8_spec_witness :
    IsScalar 129300 ∧
      decodeUtf8 (utf8EncodeChar 129300) = some 129300 ∧
      (encode_char_utf8_unchecked ⟨[97, 0, 0, 0, 0, 0], 1⟩ 129300 1).data.getD 0 0 =
        (⟨[97, 0, 0, 0, 0, 0], 1⟩ : StaticString).data.getD 0 0 := by
  have hsc : IsScalar 129300 := ⟨by omega, Or.inr (by omega)⟩
  have h := encode_char_utf8_spec ⟨[97, 0, 0, 0, 0, 0], 1⟩ 129300 1 hsc
    (by decide) (by decide)
  refine ⟨hsc, h.2.1, ?_⟩
  have h0 := h.2.2 0 (by decide)
  rwa [if_neg (by decide)] at h0

/-! ### Boundary and scan lemmas for the truncator -/

theorem strIsCharBoundary_zero (s : List Nat) : strIsCharBoundary s 0 = true := by
  simp [strIsCharBoundary]

theorem strIsCharBoundary_length (s : List Nat) :
    strIsCharBoundary s s.length = true := by
  unfold strIsCharBoundary
  by_cases h : s.length = 0
  · rw [if_pos h]
  · rw [if_neg h]
    have hnone : s.get? s.length = none := by
      rw [List.get?_eq_getElem?]
      exact List.getElem?_eq_none (Nat.le_refl _)
    rw [hnone]
    simp

theorem strIsCharBoundary_le (s : List Nat) (n : Nat)
    (h : strIsCharBoundary s n = true) : n ≤ s.length := by
  unfold strIsCharBoundary at h
  by_cases h0 : n = 0
  · omega
  · rw [if_neg h0] at h
    cases hget : s.get? n with
    | none =>
      rw [hget] at h
      simp at h
      omega
    | some b =>
      obtain ⟨hlt, _⟩ := List.get?_eq_some.mp hget
      omega

theorem scanBack_le (s : List Nat) (i : Nat) : scanBack s i ≤ i := by
  induction i with
  | zero => exact Nat.le_refl _
  | succ j ih =>
    unfold scanBack
    by_cases h : strIsCharBoundary s (j + 1) = true
    · rw [if_pos h]
    · rw [if_neg h]
      omega

theorem scanBack_boundary (s : List Nat) (i : Nat) :
    strIsCharBoundary s (scanBack s i) = true := by
  induction i with
  | zero => exact strIsCharBoundary_zero s
  | succ j ih =>
    unfold scanBack
    by_cases h : strIsCharBoundary s (j + 1) = true
    · rw [if_pos h]
      exact h
    · rw [if_neg h]
      exact ih

theorem scanBack_maximal (s : List Nat) (i k : Nat) (hk : k ≤ i)
    (hb : strIsCharBoundary s k = true) : k ≤ scanBack s i := by
  induction i with
  | zero => omega
  | succ j ih =>
    unfold scanBack
    by_cases h : strIsCharBoundary s (j + 1) = true
    · rw [if_pos h]
      omega
    · rw [if_neg h]
      have hkj : k ≤ j := by
        rcases Nat.lt_or_ge k (j + 1) with hlt | hge
        · omega
        · exfalso
          have : k = j + 1 := by omega
          rw [this] at hb
          exact h hb
      exact ih hkj

/-! ### Structure of valid UTF-8 and boundary-respecting prefixes -/

theorem utf8EncodeChar_cont (c j : Nat) (hc : IsScalar c) (h1 : 1 ≤ j)
    (h2 : j < (utf8EncodeChar c).length) :
    0x80 ≤ (utf8EncodeChar c).getD j 0 ∧ (utf8EncodeChar c).getD j 0 < 0xC0 := by
  obtain ⟨hub, _⟩ := hc
  rcases Nat.lt_or_ge c 0x80 with hr | hr
  · rw [utf8EncodeChar_one c hr] at h2
    simp at h2
    omega
  · rcases Nat.lt_or_ge c 0x800 with hr2 | hr2
    · rw [utf8EncodeChar_two c hr hr2] at h2 ⊢
      simp at h2
      have hj : j = 1 := by omega
      subst hj
      constructor <;> simp <;> omega
    · rcases Nat.lt_or_ge c 0x10000 with hr3 | hr3
      · rw [utf8EncodeChar_three c hr2 hr3] at h2 ⊢
        simp at h2
        have hj : j = 1 ∨ j = 2 := by omega
        rcases hj with hj | hj <;> subst hj <;> constructor <;> simp <;> omega
      · rw [utf8EncodeChar_four c hr3 (by omega)] at h2 ⊢
        simp at h2
        have hj : j = 1 ∨ j = 2 ∨ j = 3 := by omega
        rcases hj with hj | hj | hj <;> subst hj <;> constructor <;> simp <;> omega

theorem utf8EncodeChar_length_pos (c : Nat) : 1 ≤ (utf8EncodeChar c).length := by
  rw [utf8EncodeChar_length]
  unfold utf8Len
  split_ifs <;> omega

theorem validUtf8_take_of_boundary (s : List Nat) (hv : ValidUtf8 s) :
    ∀ m, strIsCharBoundary s m = true → ValidUtf8 (s.take m) := by
  induction hv with
  | nil =>
    intro m _
    rw [List.take_nil]
    exact ValidUtf8.nil
  | cons c rest hc hr ih =>
    intro m hb
    rcases Nat.eq_zero_or_pos m with hm0 | hmpos
    · subst hm0
      rw [List.take_zero]
      exact ValidUtf8.nil
    rcases Nat.lt_or_ge m (utf8EncodeChar c).length with hmL | hmL
    · exfalso
      have hcont := utf8EncodeChar_cont c m hc hmpos hmL
      have hget : (utf8EncodeChar c ++ rest).get? m =
          some ((utf8EncodeChar c).getD m 0) := by
        rw [List.get?_append hmL, List.get?_eq_getElem?,
          List.getElem?_eq_getElem hmL, List.getD_eq_getElem _ _ hmL]
      unfold strIsCharBoundary at hb
      rw [if_neg (by omega), hget] at hb
      simp only [Bool.or_eq_true, decide_eq_true_eq] at hb
      omega
    · have htake : (utf8EncodeChar c ++ rest).take m =
          utf8EncodeChar c ++ rest.take (m - (utf8EncodeChar c).length) := by
        rw [List.take_append_eq_append_take, List.take_of_length_le hmL]
      rw [htake]
      refine ValidUtf8.cons c _ hc (ih _ ?_)
      rcases Nat.eq_zero_or_pos (m - (utf8EncodeChar c).length) with hz | hpos
      · rw [hz]
        exact strIsCharBoundary_zero rest
      · have hget : (utf8EncodeChar c ++ rest).get? m =
            rest.get? (m - (utf8EncodeChar c).length) := List.get?_append_right hmL
        unfold strIsCharBoundary at hb ⊢
        rw [if_neg (by omega)] at hb
        rw [if_neg (by omega)]
        rw [hget] at hb
        cases hr2 : rest.get? (m - (utf8EncodeChar c).length) with
        | none =>
          rw [hr2] at hb
          rw [List.length_append] at hb
          simp only [beq_iff_eq] at hb ⊢
          omega
        | some b =>
          rw [hr2] at hb
          exact hb

/-- C4: for every byte slice `s` holding valid UTF-8 and every target `n`,
`truncate_str s n` is the longest leading sub-slice of `s` whose length is
`≤ min n (len s)` and which ends on a valid UTF-8 char boundary; in
particular it is valid UTF-8, a prefix of `s`, and on `"🤔🤔🤔"` with
`n = 5` it returns the first scalar `"🤔"`. -/
theorem truncate_str_spec (s : List Nat) (n : Nat) (hv : ValidUtf8 s) :
    (∃ m, truncate_str s n = s.take m ∧ m ≤ min n s.length ∧
      strIsCharBoundary s m = true ∧
      ∀ k, k ≤ min n s.length → strIsCharBoundary s k = true → k ≤ m) ∧
    (truncate_str s n).length ≤ min n s.length ∧
    truncate_str s n <+: s ∧
    ValidUtf8 (truncate_str s n) ∧
    truncate_str [240, 159, 164, 148, 240, 159, 164, 148, 240, 159, 164, 148] 5 =
      [240, 159, 164, 148] := by
  have hmain : ∃ m, truncate_str s n = s.take m ∧ m ≤ min n s.length ∧
      strIsCharBoundary s m = true ∧
      ∀ k, k ≤ min n s.length → strIsCharBoundary s k = true → k ≤ m := by
    unfold truncate_str
    by_cases hb : strIsCharBoundary s n = true
    · have hn := strIsCharBoundary_le s n hb
      rw [if_pos hb]
      exact ⟨n, rfl, by omega, hb, fun k hk _ => by omega⟩
    · rw [if_neg hb]
      by_cases hlt : n < s.length
      · rw [if_pos hlt]
        have hn0 : ¬n = 0 := by
          intro h
          rw [h] at hb
          exact hb (strIsCharBoundary_zero s)
        refine ⟨scanBack s (n - 1), rfl, ?_, scanBack_boundary s (n - 1), ?_⟩
        · have := scanBack_le s (n - 1)
          omega
        · intro k hk hbk
          have hkn : ¬k = n := by
            intro h
            rw [h] at hbk
            exact hb hbk
          exact scanBack_maximal s (n - 1) k (by omega) hbk
      · rw [if_neg hlt]
        refine ⟨s.length, (List.take_length s).symm, by omega,
          strIsCharBoundary_length s, fun k hk _ => by omega⟩
  obtain ⟨m, he, hle, hbm, hmax⟩ := hmain
  refine ⟨⟨m, he, hle, hbm, hmax⟩, ?_, ?_, ?_, by decide⟩
  · rw [he]
    simp only [List.length_take]
    omega
  · rw [he]
    exact ⟨s.drop m, List.take_append_drop m s⟩
  · rw [he]
    exact validUtf8_take_of_boundary s hv m hbm

theorem truncate_str_spec_witness :
    ValidUtf8 [240, 159, 164, 148, 240, 159, 164, 148, 240, 159, 164, 148] ∧
      truncate_str [240, 159, 164, 148, 240, 159, 164, 148, 240, 159, 164, 148] 5 =
        [240, 159, 164, 148] := by
  have hsc : IsScalar 129300 := ⟨by omega, Or.inr (by omega)⟩
  have hv : ValidUtf8 [240, 159, 164, 148, 240, 159, 164, 148, 240, 159, 164, 148] := by
    have h1 : ValidUtf8 (utf8EncodeChar 129300 ++ (utf8EncodeChar 129300 ++
        (utf8EncodeChar 129300 ++ []))) :=
      ValidUtf8.cons _ _ hsc (ValidUtf8.cons _ _ hsc (ValidUtf8.cons _ _ hsc ValidUtf8.nil))
    have he : utf8EncodeChar 129300 ++ (utf8EncodeChar 129300 ++
        (utf8EncodeChar 129300 ++ ([] : List Nat))) =
        [240, 159, 164, 148, 240, 159, 164, 148, 240, 159, 164, 148] := by decide
    rwa [he] at h1
  exact ⟨hv, (truncate_str_spec [240, 159, 164, 148, 240, 159, 164, 148, 240, 159, 164, 148]
    5 hv).2.2.2.2⟩
